import Mathlib

/-!
Verification of the recipe-sharing application's core helpers against their
natural-language specification.  The definitions below are shallow embeddings
of the TypeScript source:

* `ServerActions` aggregator — `src/lib/actions/server-wrapper.tsx`
* error-message resolution — `src/lib/constants` (`ERROR_MESSAGES`,
  `getErrorMessage`) and the `useServerAction` hook
* recipe save / read paths — `src/app/recipes/new/page.tsx`,
  `src/app/recipes/[id]/page.tsx`, `src/components/recipes/recipe-form.tsx`
* optimistic like / bookmark toggles — `src/components/recipes/like-button.tsx`
  and `bookmark-button.tsx`
-/

namespace Recetas

/-! ### JavaScript values

The aggregator manipulates opaque JavaScript values; the only structure it
inspects is nullishness (`??`) and, for error strings, emptiness.  We model
values with explicit `undefined` and `null` constructors so those tests are
faithful. -/

/-- A JavaScript value as observed by the aggregator: `undefined`, `null`,
or some concrete datum (booleans, numbers, strings). -/
inductive JVal where
  | undefined
  | null
  | bool (b : Bool)
  | num (n : Int)
  | str (s : String)
  deriving DecidableEq, Repr

/-- JavaScript's nullish-coalescing operator `a ?? b`. -/
def jnullish (a b : JVal) : JVal :=
  match a with
  | .undefined => b
  | .null => b
  | v => v

/-- `true` exactly for `null` and `undefined`. -/
def JVal.isNullish : JVal → Bool
  | .undefined => true
  | .null => true
  | _ => false

/-! ### The `ServerActionResult` discriminated union and the aggregator

From `src/lib/actions/types` and `src/lib/actions/server-wrapper.tsx`. -/

/-- `ServerActionResult<T>`: `{ success: true, data }` or
`{ success: false, error, errorCode?, statusCode? }`. -/
inductive SAResult where
  | success (data : JVal)
  | failure (error : String) (errorCode : Option String) (statusCode : Option Nat)
  deriving DecidableEq, Repr

/-- `true` on the `success: false` branch. -/
def SAResult.isFailure : SAResult → Bool
  | .success _ => false
  | .failure _ _ _ => true

/-- `ActionError`: the descriptor stored in the processed error map. -/
structure ActionError where
  error : String
  errorCode : Option String
  statusCode : Option Nat
  deriving DecidableEq, Repr

/-- `ActionConfig<T>`: one named action handed to `ServerActions`.  `run` is
the settled outcome of awaiting `config.action(resolvedSearchParams)`; a
rejected promise (the action threw) is `Except.error` carrying the exception
rendered as a string.  `defaultValue` is `undefined` when the field was omitted. -/
structure ActionConfig where
  run : Except String SAResult
  defaultValue : JVal := .undefined

/-- The fallback actually retained by the aggregator: the source keeps
`config.defaultValue` only when it is `!== undefined && !== null`
(server-wrapper.tsx lines 65–67); a missing entry reads back as `undefined`. -/
def configuredDefault (c : ActionConfig) : JVal :=
  if c.defaultValue = .undefined ∨ c.defaultValue = .null then .undefined else c.defaultValue

/-- Processed data entry for one action (server-wrapper.tsx lines 77–82):
`result.success ? (result.data ?? defaultValue) : defaultValue`. -/
def dataEntry (c : ActionConfig) (r : SAResult) : JVal :=
  match r with
  | .success d => jnullish d (configuredDefault c)
  | .failure _ _ _ => configuredDefault c

/-- Processed error entry for one action (server-wrapper.tsx lines 84–91):
`null` on success, else a descriptor whose message is
`result.error || 'Unknown error'`. -/
def errEntry (r : SAResult) : Option ActionError :=
  match r with
  | .success _ => none
  | .failure e ec sc => some ⟨if e = "" then "Unknown error" else e, ec, sc⟩

/-- `await Promise.all(...)` over the named actions (server-wrapper.tsx lines
60–69): every action is awaited; if any rejects, the whole aggregate call
rejects.  On success each action name is paired with its config and settled
result. -/
def collectResults : List (String × ActionConfig) →
    Except String (List (String × ActionConfig × SAResult))
  | [] => .ok []
  | (k, c) :: rest =>
    match c.run with
    | .error e => .error e
    | .ok r =>
      match collectResults rest with
      | .error e => .error e
      | .ok rs => .ok ((k, c, r) :: rs)

/-- The aggregator's observable output: the processed data object and the
processed error map, as association lists keyed by action name. -/
structure AggOutput where
  data : List (String × JVal)
  errors : List (String × Option ActionError)

/-- The `ServerActions` server component (server-wrapper.tsx lines 48–103):
await all actions, then fold each settled result into the data object and the
error map.  A `JVal.undefined` data entry is what JavaScript code observes for an
absent key. -/
def serverActions (actions : List (String × ActionConfig)) : Except String AggOutput :=
  match collectResults actions with
  | .error e => .error e
  | .ok rs =>
    .ok ⟨rs.map (fun t => (t.1, dataEntry t.2.1 t.2.2)),
         rs.map (fun t => (t.1, errEntry t.2.2))⟩

/-- Reading `processedData[k]`: a missing key is `undefined`. -/
def dataLookup (data : List (String × JVal)) (k : String) : JVal :=
  match data.find? (fun p => p.1 == k) with
  | some p => p.2
  | none => .undefined

/-- Reading `processedErrors[k]`. -/
def errLookup (errs : List (String × Option ActionError)) (k : String) : Option ActionError :=
  match errs.find? (fun p => p.1 == k) with
  | some p => p.2
  | none => none

/-- `true` when the settled action is a `success: false` result (never a
rejection). -/
def actionFails (c : ActionConfig) : Bool :=
  match c.run with
  | .ok r => r.isFailure
  | .error _ => false

/-- `true` when the aggregate call rejects instead of producing output. -/
def serverActionsRejects (actions : List (String × ActionConfig)) : Bool :=
  match serverActions actions with
  | .error _ => true
  | .ok _ => false

/-! #### Structural lemmas about the aggregator -/

theorem collectResults_ok_spec :
    ∀ (actions : List (String × ActionConfig)) (rs : List (String × ActionConfig × SAResult)),
      collectResults actions = .ok rs →
      rs.map (fun t => (t.1, t.2.1)) = actions ∧ ∀ t ∈ rs, t.2.1.run = .ok t.2.2 := by
  intro actions
  induction actions with
  | nil =>
    intro rs h
    simp only [collectResults] at h
    cases h
    exact ⟨rfl, by simp⟩
  | cons p rest ih =>
    intro rs h
    obtain ⟨k, c⟩ := p
    simp only [collectResults] at h
    cases hrun : c.run with
    | error e => rw [hrun] at h; cases h
    | ok r =>
      rw [hrun] at h
      cases hrest : collectResults rest with
      | error e => rw [hrest] at h; cases h
      | ok rs' =>
        rw [hrest] at h
        cases h
        obtain ⟨hmap, hall⟩ := ih rs' hrest
        refine ⟨by simp [hmap], ?_⟩
        intro t ht
        rcases List.mem_cons.mp ht with h1 | h2
        · subst h1; exact hrun
        · exact hall t h2

theorem collectResults_ok_of_forall :
    ∀ (actions : List (String × ActionConfig)),
      (∀ p ∈ actions, ∃ r, p.2.run = .ok r) →
      ∃ rs, collectResults actions = .ok rs := by
  intro actions
  induction actions with
  | nil => intro _; exact ⟨[], rfl⟩
  | cons p rest ih =>
    intro h
    obtain ⟨r, hr⟩ := h p (List.mem_cons_self p rest)
    obtain ⟨rs', hrs'⟩ := ih (fun q hq => h q (List.mem_cons_of_mem p hq))
    refine ⟨(p.1, p.2, r) :: rs', ?_⟩
    simp only [collectResults, hr, hrs']

theorem collectResults_error_of_mem
    {actions : List (String × ActionConfig)} {k : String} {c : ActionConfig} {e : String}
    (hmem : (k, c) ∈ actions) (hthrow : c.run = .error e) :
    ∃ e', collectResults actions = .error e' := by
  induction actions with
  | nil => cases hmem
  | cons p rest ih =>
    rcases List.mem_cons.mp hmem with h1 | h2
    · obtain ⟨k', c'⟩ := p
      cases h1
      exact ⟨e, by simp only [collectResults, hthrow]⟩
    · obtain ⟨k', c'⟩ := p
      cases hrun : c'.run with
      | error e'' => exact ⟨e'', by simp only [collectResults, hrun]⟩
      | ok r =>
        obtain ⟨e', he'⟩ := ih h2
        exact ⟨e', by simp only [collectResults, hrun, he']⟩

theorem mem_collectResults_of_mem
    {actions : List (String × ActionConfig)} {rs : List (String × ActionConfig × SAResult)}
    (h : collectResults actions = .ok rs) {k : String} {c : ActionConfig}
    (hmem : (k, c) ∈ actions) : ∃ r, (k, c, r) ∈ rs ∧ c.run = .ok r := by
  obtain ⟨hmap, hall⟩ := collectResults_ok_spec actions rs h
  subst hmap
  obtain ⟨t, ht, heq⟩ := List.mem_map.mp hmem
  obtain ⟨k', c', r'⟩ := t
  obtain ⟨h1, h2⟩ := Prod.mk.injEq .. ▸ heq
  simp only at h1 h2
  subst h1; subst h2
  exact ⟨r', ht, hall _ ht⟩

theorem processed_lookup_of_mem :
    ∀ (rs : List (String × ActionConfig × SAResult)) (k : String) (c : ActionConfig)
      (r : SAResult),
      (rs.map (fun t => t.1)).Nodup → (k, c, r) ∈ rs →
      dataLookup (rs.map (fun t => (t.1, dataEntry t.2.1 t.2.2))) k = dataEntry c r ∧
      errLookup (rs.map (fun t => (t.1, errEntry t.2.2))) k = errEntry r := by
  intro rs
  induction rs with
  | nil => intro k c r _ hmem; cases hmem
  | cons t rest ih =>
    intro k c r hnd hmem
    obtain ⟨k', c', r'⟩ := t
    rcases List.mem_cons.mp hmem with h1 | h2
    · cases h1
      constructor
      · simp [dataLookup, List.find?]
      · simp [errLookup, List.find?]
    · have hk : k' ≠ k := by
        intro hkk
        subst hkk
        have : k' ∈ rest.map (fun t => t.1) :=
          List.mem_map.mpr ⟨(k', c, r), h2, rfl⟩
        exact (List.nodup_cons.mp (by simpa using hnd)).1 this
      have hnd' : (rest.map (fun t => t.1)).Nodup :=
        (List.nodup_cons.mp (by simpa using hnd)).2
      have ihres := ih k c r hnd' h2
      have hbe : (k' == k) = false := beq_eq_false_iff_ne.mpr hk
      constructor
      · simpa [dataLookup, List.find?, hbe] using ihres.1
      · simpa [errLookup, List.find?, hbe] using ihres.2

theorem errEntry_isSome (r : SAResult) : (errEntry r).isSome = r.isFailure := by
  cases r <;> simp [errEntry, SAResult.isFailure]

theorem collectResults_count :
    ∀ (actions : List (String × ActionConfig)) (rs : List (String × ActionConfig × SAResult)),
      collectResults actions = .ok rs →
      (rs.map (fun t => (t.1, errEntry t.2.2))).countP (fun p => p.2.isSome) =
        actions.countP (fun p => actionFails p.2) := by
  intro actions
  induction actions with
  | nil =>
    intro rs h
    simp only [collectResults] at h
    cases h
    rfl
  | cons p rest ih =>
    intro rs h
    obtain ⟨k, c⟩ := p
    simp only [collectResults] at h
    cases hrun : c.run with
    | error e => rw [hrun] at h; cases h
    | ok r =>
      rw [hrun] at h
      cases hrest : collectResults rest with
      | error e => rw [hrest] at h; cases h
      | ok rs' =>
        rw [hrest] at h
        cases h
        have hcount := ih rs' hrest
        simp only [List.map_cons, List.countP_cons, hcount, errEntry_isSome,
          actionFails, hrun]

theorem serverActions_keys {actions : List (String × ActionConfig)} {out : AggOutput}
    (h : serverActions actions = .ok out) :
    out.data.map Prod.fst = actions.map Prod.fst ∧
    out.errors.map Prod.fst = actions.map Prod.fst ∧
    out.errors.countP (fun p => p.2.isSome) = actions.countP (fun p => actionFails p.2) := by
  unfold serverActions at h
  cases hrs : collectResults actions with
  | error e => rw [hrs] at h; cases h
  | ok rs =>
    rw [hrs] at h
    cases h
    obtain ⟨hmap, _⟩ := collectResults_ok_spec actions rs hrs
    have hkeys : rs.map (fun t => t.1) = actions.map Prod.fst := by
      calc rs.map (fun t => t.1)
          = (rs.map (fun t => (t.1, t.2.1))).map Prod.fst := by simp
        _ = actions.map Prod.fst := by rw [hmap]
    refine ⟨?_, ?_, ?_⟩
    · simpa using hkeys
    · simpa using hkeys
    · simpa using collectResults_count actions rs hrs

theorem serverActions_ok_lookup {actions : List (String × ActionConfig)}
    (hnd : (actions.map Prod.fst).Nodup) {out : AggOutput}
    (h : serverActions actions = .ok out) {k : String} {c : ActionConfig} {r : SAResult}
    (hmem : (k, c) ∈ actions) (hrun : c.run = .ok r) :
    dataLookup out.data k = dataEntry c r ∧ errLookup out.errors k = errEntry r := by
  unfold serverActions at h
  cases hrs : collectResults actions with
  | error e => rw [hrs] at h; cases h
  | ok rs =>
    rw [hrs] at h
    cases h
    obtain ⟨r', hmem', hrun'⟩ := mem_collectResults_of_mem hrs hmem
    have hrr : r' = r := by
      rw [hrun] at hrun'
      injection hrun' with h
      exact h.symm
    rw [hrr] at hmem'
    obtain ⟨hmap, _⟩ := collectResults_ok_spec actions rs hrs
    have hkeys : rs.map (fun t => t.1) = actions.map Prod.fst := by
      calc rs.map (fun t => t.1)
          = (rs.map (fun t => (t.1, t.2.1))).map Prod.fst := by simp
        _ = actions.map Prod.fst := by rw [hmap]
    exact processed_lookup_of_mem rs k c r (hkeys ▸ hnd) hmem'

/-- C1, counterexample to the claim as stated: a single action that *succeeds*
with value `null` while a non-null fallback `"x"` is configured.  The processed
data entry for `"a"` is the fallback `"x"`, not the action's success value
`null` — so "the action's success value when it succeeded" fails. -/
theorem serverActions_success_value_counterexample :
    serverActions [("a", ⟨.ok (.success .null), .str "x"⟩)] =
      .ok ⟨[("a", .str "x")], [("a", none)]⟩ ∧ JVal.str "x" ≠ JVal.null :=
  ⟨rfl, by decide⟩

/-- C1 (amended): for an aggregate call over named actions with pairwise
distinct names in which no action throws, the processed data object has an
entry for every action name, holding the action's success value when it
succeeded with a non-nullish value, and otherwise (failure, or a nullish
success value) the configured fallback — `undefined`/absent when no non-null
fallback was configured; the processed error map is keyed by the same names,
maps every succeeding action to `null` and every failing action to its error
descriptor, and carries exactly K non-null descriptors when K actions fail.
A failing action never prevents a sibling's value from appearing. -/
theorem serverActions_aggregate_complete (actions : List (String × ActionConfig))
    (hok : ∀ p ∈ actions, ∃ r, p.2.run = .ok r)
    (hnd : (actions.map Prod.fst).Nodup) :
    ∃ out, serverActions actions = .ok out ∧
      out.data.map Prod.fst = actions.map Prod.fst ∧
      out.errors.map Prod.fst = actions.map Prod.fst ∧
      (∀ k c d, (k, c) ∈ actions → c.run = .ok (.success d) → d.isNullish = false →
        dataLookup out.data k = d) ∧
      (∀ k c d, (k, c) ∈ actions → c.run = .ok (.success d) → d.isNullish = true →
        dataLookup out.data k = configuredDefault c) ∧
      (∀ k c e ec sc, (k, c) ∈ actions → c.run = .ok (.failure e ec sc) →
        dataLookup out.data k = configuredDefault c) ∧
      (∀ k c d, (k, c) ∈ actions → c.run = .ok (.success d) →
        errLookup out.errors k = none) ∧
      (∀ k c e ec sc, (k, c) ∈ actions → c.run = .ok (.failure e ec sc) →
        errLookup out.errors k = some ⟨if e = "" then "Unknown error" else e, ec, sc⟩) ∧
      out.errors.countP (fun p => p.2.isSome) = actions.countP (fun p => actionFails p.2) := by
  obtain ⟨rs, hrs⟩ := collectResults_ok_of_forall actions hok
  have hsa : serverActions actions =
      .ok ⟨rs.map (fun t => (t.1, dataEntry t.2.1 t.2.2)),
           rs.map (fun t => (t.1, errEntry t.2.2))⟩ := by
    simp [serverActions, hrs]
  refine ⟨_, hsa, (serverActions_keys hsa).1, (serverActions_keys hsa).2.1, ?_, ?_, ?_, ?_, ?_,
    (serverActions_keys hsa).2.2⟩
  · intro k c d hmem hrun hnn
    have := (serverActions_ok_lookup hnd hsa hmem hrun).1
    rw [this]
    cases d <;> simp [dataEntry, jnullish] <;> simp [JVal.isNullish] at hnn
  · intro k c d hmem hrun hnn
    have := (serverActions_ok_lookup hnd hsa hmem hrun).1
    rw [this]
    cases d <;> simp [dataEntry, jnullish] <;> simp [JVal.isNullish] at hnn
  · intro k c e ec sc hmem hrun
    exact (serverActions_ok_lookup hnd hsa hmem hrun).1
  · intro k c d hmem hrun
    exact (serverActions_ok_lookup hnd hsa hmem hrun).2
  · intro k c e ec sc hmem hrun
    exact (serverActions_ok_lookup hnd hsa hmem hrun).2

/-- Concrete aggregate call for the C1 witness: one plain success, one failure
with a fallback, one failure without a fallback. -/
def c1Acts : List (String × ActionConfig) :=
  [("recipe", ⟨.ok (.success (.num 7)), .undefined⟩),
   ("comments", ⟨.ok (.failure "boom" (some "NOT_FOUND") (some 404)), .str "fb"⟩),
   ("related", ⟨.ok (.failure "" none none), .undefined⟩)]

theorem serverActions_aggregate_complete_witness :
    (∀ p ∈ c1Acts, ∃ r, p.2.run = .ok r) ∧ (c1Acts.map Prod.fst).Nodup ∧
    (∃ out, serverActions c1Acts = .ok out ∧
      out.data.map Prod.fst = c1Acts.map Prod.fst ∧
      out.errors.map Prod.fst = c1Acts.map Prod.fst ∧
      (∀ k c d, (k, c) ∈ c1Acts → c.run = .ok (.success d) → d.isNullish = false →
        dataLookup out.data k = d) ∧
      (∀ k c d, (k, c) ∈ c1Acts → c.run = .ok (.success d) → d.isNullish = true →
        dataLookup out.data k = configuredDefault c) ∧
      (∀ k c e ec sc, (k, c) ∈ c1Acts → c.run = .ok (.failure e ec sc) →
        dataLookup out.data k = configuredDefault c) ∧
      (∀ k c d, (k, c) ∈ c1Acts → c.run = .ok (.success d) →
        errLookup out.errors k = none) ∧
      (∀ k c e ec sc, (k, c) ∈ c1Acts → c.run = .ok (.failure e ec sc) →
        errLookup out.errors k = some ⟨if e = "" then "Unknown error" else e, ec, sc⟩) ∧
      out.errors.countP (fun p => p.2.isSome) = c1Acts.countP (fun p => actionFails p.2)) := by
  have hok : ∀ p ∈ c1Acts, ∃ r, p.2.run = .ok r := by
    intro p hp
    simp only [c1Acts, List.mem_cons, List.not_mem_nil, or_false] at hp
    rcases hp with h | h | h <;> subst h <;> exact ⟨_, rfl⟩
  have hnd : (c1Acts.map Prod.fst).Nodup := by decide
  exact ⟨hok, hnd, serverActions_aggregate_complete c1Acts hok hnd⟩

/-- C2, counterexample to the claim as stated: when an action's promise
rejects, the aggregate call itself rejects with that exception — it does not
produce a data/error output treating the throw as a generic failure. -/
theorem serverActions_throw_counterexample :
    serverActions
      [("boom", ⟨.error "TypeError: fail", .undefined⟩),
       ("ok", ⟨.ok (.success (.num 1)), .undefined⟩)] = .error "TypeError: fail" := rfl

/-- C2 (amended): if any supplied action function throws (its promise
rejects), `ServerActions` performs no exception handling of its own: the
`Promise.all` rejection propagates and the aggregate call produces no
data/error output at all.  Exceptions are converted to generic-code failures
only in the client-side mutation helper, not in the aggregator. -/
theorem serverActions_throw_propagates (actions : List (String × ActionConfig))
    (k : String) (c : ActionConfig) (e : String)
    (hmem : (k, c) ∈ actions) (hthrow : c.run = .error e) :
    serverActionsRejects actions = true := by
  obtain ⟨e', he'⟩ := collectResults_error_of_mem hmem hthrow
  simp [serverActionsRejects, serverActions, he']

/-- The throwing configuration used by the C2 witness. -/
def c2ThrowCfg : ActionConfig := ⟨.error "TypeError: fail", .undefined⟩

/-- Concrete aggregate call for the C2 witness. -/
def c2Acts : List (String × ActionConfig) :=
  [("boom", c2ThrowCfg), ("ok", ⟨.ok (.success (.num 1)), .undefined⟩)]

theorem serverActions_throw_propagates_witness :
    ("boom", c2ThrowCfg) ∈ c2Acts ∧ c2ThrowCfg.run = .error "TypeError: fail" ∧
    serverActionsRejects c2Acts = true :=
  ⟨List.mem_cons_self _ _, rfl,
    serverActions_throw_propagates c2Acts "boom" c2ThrowCfg "TypeError: fail"
      (List.mem_cons_self _ _) rfl⟩

/-- Erase a `defaultValue: null`, which the aggregator ignores
(server-wrapper.tsx lines 65–67). -/
def scrubNullDefault (c : ActionConfig) : ActionConfig :=
  if c.defaultValue = .null then ⟨c.run, .undefined⟩ else c

theorem scrubNullDefault_run (c : ActionConfig) : (scrubNullDefault c).run = c.run := by
  unfold scrubNullDefault
  split <;> rfl

theorem configuredDefault_scrub (c : ActionConfig) :
    configuredDefault (scrubNullDefault c) = configuredDefault c := by
  unfold scrubNullDefault configuredDefault
  split <;> rename_i h
  · simp [h]
  · rfl

theorem dataEntry_scrub (c : ActionConfig) (r : SAResult) :
    dataEntry (scrubNullDefault c) r = dataEntry c r := by
  cases r <;> simp [dataEntry, configuredDefault_scrub]

theorem collectResults_scrub :
    ∀ actions : List (String × ActionConfig),
      collectResults (actions.map (fun p => (p.1, scrubNullDefault p.2))) =
        (collectResults actions).map
          (List.map (fun t => (t.1, scrubNullDefault t.2.1, t.2.2))) := by
  intro actions
  induction actions with
  | nil => rfl
  | cons p rest ih =>
    obtain ⟨k, c⟩ := p
    simp only [List.map_cons, collectResults, scrubNullDefault_run, ih]
    cases c.run <;> cases collectResults rest <;> rfl

theorem serverActions_scrub (actions : List (String × ActionConfig)) :
    serverActions (actions.map (fun p => (p.1, scrubNullDefault p.2))) =
      serverActions actions := by
  unfold serverActions
  rw [collectResults_scrub]
  cases collectResults actions with
  | error e => rfl
  | ok rs =>
    simp only [Except.map, List.map_map]
    congr 1
    simp only [AggOutput.mk.injEq]
    refine ⟨?_, ?_⟩
    · exact List.map_congr_left (fun t _ => by simp [Function.comp, dataEntry_scrub])
    · exact List.map_congr_left (fun t _ => by simp [Function.comp])

/-- C10: a `defaultValue` of `null` is never applied — scrubbing it to
"no fallback" leaves every aggregate call's outcome unchanged — and when an
action succeeds with a nullish value while a non-null fallback is configured,
the processed data entry is the fallback while the error map still records the
action as succeeded (`null`), so that entry is indistinguishable from the one
produced by a failing action with the same fallback. -/
theorem serverActions_null_fallback_behavior (actions : List (String × ActionConfig))
    (c : ActionConfig) (d : JVal) (hnullish : d.isNullish = true)
    (hfb1 : c.defaultValue ≠ .undefined) (hfb2 : c.defaultValue ≠ .null) :
    serverActions (actions.map (fun p => (p.1, scrubNullDefault p.2))) =
      serverActions actions ∧
    dataEntry c (.success d) = c.defaultValue ∧
    errEntry (.success d) = none ∧
    (∀ e ec sc, dataEntry c (.success d) = dataEntry c (.failure e ec sc)) := by
  have hcd : configuredDefault c = c.defaultValue := by
    unfold configuredDefault
    rw [if_neg]
    push_neg
    exact ⟨hfb1, hfb2⟩
  refine ⟨serverActions_scrub actions, ?_, rfl, ?_⟩
  · cases d <;> simp_all [dataEntry, jnullish, JVal.isNullish]
  · intro e ec sc
    cases d <;> simp_all [dataEntry, jnullish, JVal.isNullish]

theorem serverActions_null_fallback_behavior_witness :
    JVal.isNullish .null = true ∧ JVal.str "fb" ≠ JVal.undefined ∧ JVal.str "fb" ≠ JVal.null ∧
    (serverActions (c1Acts.map (fun p => (p.1, scrubNullDefault p.2))) =
      serverActions c1Acts ∧
    dataEntry ⟨.ok (.success .null), .str "fb"⟩ (.success .null) =
      (⟨.ok (.success .null), .str "fb"⟩ : ActionConfig).defaultValue ∧
    errEntry (.success .null) = none ∧
    (∀ e ec sc, dataEntry ⟨.ok (.success .null), .str "fb"⟩ (.success .null) =
      dataEntry ⟨.ok (.success .null), .str "fb"⟩ (.failure e ec sc))) :=
  ⟨rfl, by decide, by decide,
    serverActions_null_fallback_behavior c1Acts ⟨.ok (.success .null), .str "fb"⟩ .null
      rfl (by decide) (by decide)⟩

/-! ### Error-message resolution (`src/lib/constants`) -/

namespace Constants

/-- `ERROR_MESSAGES`: the fixed code-to-message table. -/
def ERROR_MESSAGES : String → Option String
  | "NOT_FOUND" => some "No se encontro el recurso solicitado"
  | "UNAUTHORIZED" => some "No tienes permiso para realizar esta accion"
  | "FORBIDDEN" => some "Acceso denegado"
  | "VALIDATION_ERROR" => some "Los datos proporcionados no son validos"
  | "NETWORK_ERROR" => some "Error de conexion. Verifica tu internet"
  | "SERVER_ERROR" => some "Error del servidor. Intenta de nuevo mas tarde"
  | "UNKNOWN" => some "Ocurrio un error inesperado"
  | _ => none

/-- `getErrorMessage(error, errorCode)`: the mapped message when the code is
present and in the table, else `error || ERROR_MESSAGES.UNKNOWN` (the
`UNKNOWN` entry is the string repeated literally below). -/
def getErrorMessage (error : String) (errorCode : Option String) : String :=
  match errorCode with
  | some c =>
    match ERROR_MESSAGES c with
    | some m => m
    | none => if error = "" then "Ocurrio un error inesperado" else error
  | none => if error = "" then "Ocurrio un error inesperado" else error

end Constants

/-! ### The `useServerAction` mutation helper (client hook) -/

/-- The hook's `messageError` option: `undefined` (omitted), the explicit
`null` sentinel that disables the error toast, or a custom message string. -/
inductive MsgErr where
  | omitted
  | nullSentinel
  | msg (s : String)
  deriving DecidableEq, Repr

namespace Hook

/-- The hook's local `getErrorMessage(result, customMessage)`:
`if (customMessage) return customMessage` (truthiness: a non-empty string),
else the constants lookup on the result's error text and code. -/
def getErrorMessage (err : String) (errorCode : Option String)
    (customMessage : MsgErr) : String :=
  match customMessage with
  | .msg s => if s = "" then Constants.getErrorMessage err errorCode else s
  | _ => Constants.getErrorMessage err errorCode

/-- The options record handed to `execute` (callbacks are modeled as emitted
events rather than function values). -/
structure ExecOptions where
  messageError : MsgErr := .omitted
  messageSuccess : Option String := none
  deriving DecidableEq, Repr

/-- Observable steps of one `execute` invocation, in order: state updates,
the wrapped operation's invocation, toasts, and callback invocations. -/
inductive ExecEv where
  | setLoading (b : Bool)
  | invoke
  | toastError (s : String)
  | toastSuccess (s : String)
  | onError (message : String) (errorCode : Option String) (statusCode : Option Nat)
      (originalError : String)
  | onSuccess (data : JVal)
  | onFinally
  deriving DecidableEq, Repr

/-- The `try`/`catch` body of `execute` (between `setIsLoading(true)` and the
`finally` block).  `action` is the settled outcome of `await action()`:
`Except.error` models a thrown exception.  Returns the emitted events and the
boolean return value. -/
def executeBody (action : Except String SAResult) (opts : ExecOptions) :
    List ExecEv × Bool :=
  match action with
  | .ok (.failure err code status) =>
    let errorMessage := getErrorMessage err code opts.messageError
    ((if opts.messageError = .nullSentinel then [] else [.toastError errorMessage]) ++
      [.onError errorMessage code status err], false)
  | .ok (.success d) =>
    ((match opts.messageSuccess with
      | some s => if s = "" then [] else [.toastSuccess s]
      | none => []) ++ [.onSuccess d], true)
  | .error exn =>
    let errorMessage :=
      match opts.messageError with
      | .msg s => s
      | _ => "Ocurrio un error inesperado"
    ((if opts.messageError = .nullSentinel then [] else [.toastError errorMessage]) ++
      [.onError errorMessage (some "UNKNOWN") (some 500) exn], false)

/-- One `execute(action, options)` call: `setIsLoading(true)`, invoke the
operation, run the try/catch body, then the `finally` block
(`setIsLoading(false)` followed by `onFinally`). -/
def execute (action : Except String SAResult) (opts : ExecOptions) :
    List ExecEv × Bool :=
  ((ExecEv.setLoading true :: ExecEv.invoke :: (executeBody action opts).1) ++
    [ExecEv.setLoading false, ExecEv.onFinally],
   (executeBody action opts).2)

theorem executeBody_no_setLoading (action : Except String SAResult)
    (opts : ExecOptions) :
    ∀ e ∈ (executeBody action opts).1, ∀ b, e ≠ ExecEv.setLoading b := by
  intro e he b
  cases action with
  | error exn =>
    simp only [executeBody] at he
    rw [List.mem_append] at he
    rcases he with h | h
    · split at h
      · cases h
      · rw [List.mem_singleton] at h; subst h; simp
    · rw [List.mem_singleton] at h; subst h; simp
  | ok r =>
    cases r with
    | failure err code status =>
      simp only [executeBody] at he
      rw [List.mem_append] at he
      rcases he with h | h
      · split at h
        · cases h
        · rw [List.mem_singleton] at h; subst h; simp
      · rw [List.mem_singleton] at h; subst h; simp
    | success d =>
      simp only [executeBody] at he
      rw [List.mem_append] at he
      rcases he with h | h
      · split at h
        · split at h
          · cases h
          · rw [List.mem_singleton] at h; subst h; simp
        · cases h
      · rw [List.mem_singleton] at h; subst h; simp

end Hook

/-- C3: every `execute` invocation emits `setIsLoading(true)` first, then
invokes the wrapped operation, and — on every outcome: success result,
failure result, or thrown exception — ends with the `finally` block setting
the flag back to `false` (followed by `onFinally`); no other loading-flag
update happens in between. -/
theorem execute_loading_flag_span (action : Except String SAResult)
    (opts : Hook.ExecOptions) :
    ∃ mid, (Hook.execute action opts).1 =
        Hook.ExecEv.setLoading true :: Hook.ExecEv.invoke ::
          (mid ++ [Hook.ExecEv.setLoading false, Hook.ExecEv.onFinally]) ∧
      ∀ e ∈ mid, ∀ b, e ≠ Hook.ExecEv.setLoading b :=
  ⟨(Hook.executeBody action opts).1, rfl,
    fun e he b => Hook.executeBody_no_setLoading action opts e he b⟩

/-- C4: on a failure result with the explicit `null` sentinel for
`messageError`, no error toast is emitted but `onError` is still invoked with
the resolved message (code-to-message lookup, else the raw error text), the
error code, the status code, and the original error text; with `messageError`
omitted the toast is shown — so the sentinel is distinguishable from
omission. -/
theorem execute_null_sentinel_suppresses_toast (err : String) (code : Option String)
    (status : Option Nat) (ms : Option String) :
    (∀ s, Hook.ExecEv.toastError s ∉
      (Hook.execute (.ok (.failure err code status)) ⟨.nullSentinel, ms⟩).1) ∧
    Hook.ExecEv.onError (Constants.getErrorMessage err code) code status err ∈
      (Hook.execute (.ok (.failure err code status)) ⟨.nullSentinel, ms⟩).1 ∧
    Hook.ExecEv.toastError (Constants.getErrorMessage err code) ∈
      (Hook.execute (.ok (.failure err code status)) ⟨.omitted, ms⟩).1 := by
  refine ⟨?_, ?_, ?_⟩
  · intro s hs
    simp [Hook.execute, Hook.executeBody] at hs
  · simp [Hook.execute, Hook.executeBody, Hook.getErrorMessage]
  · simp [Hook.execute, Hook.executeBody, Hook.getErrorMessage]

/-- C5, counterexample to the claim as stated: the override `""` is a non-null
provided override message, yet the hook's truthiness test skips it and the
resolved message is the raw error text `"x"`, not the override. -/
theorem getErrorMessage_empty_override_counterexample :
    Hook.getErrorMessage "x" none (.msg "") = "x" ∧ ("x" : String) ≠ "" :=
  ⟨rfl, by decide⟩

/-- Modelled from the amended claim's words: resolution priority is the
caller's non-null, *non-empty* override; else the fixed code-to-message table
entry when the result carries a mapped error code; else the result's raw
error text when non-empty; else the generic unknown-error message. -/
def resolveMessageSpec (custom : MsgErr) (err : String) (code : Option String) : String :=
  match custom with
  | .msg s =>
    if s ≠ "" then s
    else
      match code.bind Constants.ERROR_MESSAGES with
      | some m => m
      | none => if err ≠ "" then err else "Ocurrio un error inesperado"
  | _ =>
    match code.bind Constants.ERROR_MESSAGES with
    | some m => m
    | none => if err ≠ "" then err else "Ocurrio un error inesperado"

theorem constants_getErrorMessage_eq_spec (err : String) (code : Option String) :
    Constants.getErrorMessage err code =
      match code.bind Constants.ERROR_MESSAGES with
      | some m => m
      | none => if err ≠ "" then err else "Ocurrio un error inesperado" := by
  cases code with
  | none =>
    by_cases h : err = "" <;> simp [Constants.getErrorMessage, Option.bind, h]
  | some c =>
    cases hm : Constants.ERROR_MESSAGES c with
    | some m => simp [Constants.getErrorMessage, Option.bind, hm]
    | none =>
      by_cases h : err = "" <;> simp [Constants.getErrorMessage, Option.bind, hm, h]

/-- C5 (amended): for every failure result the hook resolves exactly one
user-facing message, in this order: the caller's non-null *non-empty* override
when provided; else the fixed code-to-message table entry when the result
carries a mapped error code; else the result's raw error text when non-empty;
else the generic unknown-error message. -/
theorem getErrorMessage_resolution_order (custom : MsgErr) (err : String)
    (code : Option String) :
    Hook.getErrorMessage err code custom = resolveMessageSpec custom err code := by
  cases custom with
  | omitted => simp [Hook.getErrorMessage, resolveMessageSpec, constants_getErrorMessage_eq_spec]
  | nullSentinel => simp [Hook.getErrorMessage, resolveMessageSpec, constants_getErrorMessage_eq_spec]
  | msg s =>
    by_cases hs : s = "" <;>
      simp [Hook.getErrorMessage, resolveMessageSpec, hs, constants_getErrorMessage_eq_spec]

/-! ### Recipe save and read paths

Save: `src/app/recipes/new/page.tsx` `onSubmit` (lines 165–214) — per valid
ingredient, look up the global `ingredients` catalog by the normalized name,
insert a new catalog row when absent, then insert a `recipe_ingredients` row
with `order_index` equal to the array position; per valid instruction, insert
an `instructions` row with `step_number` = position + 1.

Read: `src/app/recipes/[id]/page.tsx` `getRecipeById` (lines 133–147) — sort
`recipe_ingredients` by `order_index` and `instructions` by `step_number`,
then project display fields. -/

/-- JavaScript's `String.prototype.trim`: strip leading and trailing
whitespace, modeled over the character list. -/
def jsTrim (s : String) : String :=
  ⟨((s.data.dropWhile Char.isWhitespace).reverse.dropWhile Char.isWhitespace).reverse⟩

/-- JavaScript's `String.prototype.toLowerCase`, character by character. -/
def jsToLower (s : String) : String := ⟨s.data.map Char.toLower⟩

/-- `name.trim().toLowerCase()` — normalization applied to ingredient names
before catalog lookup and insert. -/
def normalizeName (s : String) : String := jsToLower (jsTrim s)

/-- The global `ingredients` table: rows `(id, name)` plus the id the store
will assign next. -/
structure Catalog where
  rows : List (Nat × String)
  nextId : Nat
  deriving DecidableEq, Repr

/-- `select id from ingredients where name = ?` (maybeSingle). -/
def Catalog.lookupName (c : Catalog) (name : String) : Option Nat :=
  (c.rows.find? (fun p => p.2 == name)).map Prod.fst

/-- The `ingredients(name)` join used on read: resolve a row id to its name. -/
def Catalog.findName (c : Catalog) (id : Nat) : Option String :=
  (c.rows.find? (fun p => p.1 == id)).map Prod.snd

/-- The save path's lookup-then-insert: reuse the existing row's id when the
normalized name is already present, else insert a fresh row. -/
def Catalog.getOrCreate (c : Catalog) (name : String) : Catalog × Nat :=
  match c.lookupName name with
  | some id => (c, id)
  | none => (⟨c.rows ++ [(c.nextId, name)], c.nextId + 1⟩, c.nextId)

/-- Store well-formedness: assigned ids are below the next fresh id and are
pairwise distinct (the primary-key property of the `ingredients` table). -/
def Catalog.WF (c : Catalog) : Prop :=
  (∀ p ∈ c.rows, p.1 < c.nextId) ∧ (c.rows.map Prod.fst).Nodup

/-- At most one catalog row per (normalized) name — the uniqueness invariant
claimed for the ingredient catalog. -/
def Catalog.uniqueNames (c : Catalog) : Prop := (c.rows.map Prod.snd).Nodup

theorem find_by_fst {l : List (Nat × String)} (hnd : (l.map Prod.fst).Nodup)
    {id : Nat} {n : String} (hmem : (id, n) ∈ l) :
    (l.find? (fun p => p.1 == id)).map Prod.snd = some n := by
  induction l with
  | nil => cases hmem
  | cons q rest ih =>
    obtain ⟨qid, qn⟩ := q
    have hcons : (qid :: rest.map Prod.fst).Nodup := by simpa using hnd
    have hni : qid ∉ rest.map Prod.fst := (List.nodup_cons.mp hcons).1
    have hnd' : (rest.map Prod.fst).Nodup := (List.nodup_cons.mp hcons).2
    rcases List.mem_cons.mp hmem with h | h
    · cases h
      simp [List.find?]
    · have hne : qid ≠ id := by
        intro heq
        subst heq
        exact hni (List.mem_map.mpr ⟨(qid, n), h, rfl⟩)
      have hbe : (qid == id) = false := beq_eq_false_iff_ne.mpr hne
      simpa [List.find?, hbe] using ih hnd' h

theorem Catalog.findName_of_mem {c : Catalog} (hwf : c.WF) {id : Nat} {n : String}
    (hmem : (id, n) ∈ c.rows) : c.findName id = some n :=
  find_by_fst hwf.2 hmem

theorem Catalog.getOrCreate_WF {c : Catalog} {n : String} (hwf : c.WF) :
    (c.getOrCreate n).1.WF := by
  unfold Catalog.getOrCreate
  cases hlk : c.lookupName n with
  | some id => exact hwf
  | none =>
    refine ⟨?_, ?_⟩
    · intro p hp
      rcases List.mem_append.mp hp with h | h
      · exact Nat.lt_succ_of_lt (hwf.1 p h)
      · rw [List.mem_singleton] at h
        subst h
        exact Nat.lt_succ_self _
    · simp only [List.map_append, List.map_cons, List.map_nil]
      rw [List.nodup_append]
      refine ⟨hwf.2, List.nodup_singleton _, ?_⟩
      intro x hx hx'
      rw [List.mem_singleton] at hx'
      subst hx'
      obtain ⟨p, hp, hpx⟩ := List.mem_map.mp hx
      exact Nat.lt_irrefl _ (hpx ▸ hwf.1 p hp)

theorem Catalog.getOrCreate_findName {c : Catalog} {n : String} (hwf : c.WF) :
    (c.getOrCreate n).1.findName (c.getOrCreate n).2 = some n := by
  unfold Catalog.getOrCreate
  cases hlk : c.lookupName n with
  | some id =>
    obtain ⟨p, hfind, hid⟩ :
        ∃ p, c.rows.find? (fun p => p.2 == n) = some p ∧ p.1 = id := by
      unfold Catalog.lookupName at hlk
      cases hf : c.rows.find? (fun p => p.2 == n) with
      | none => rw [hf] at hlk; cases hlk
      | some p =>
        rw [hf] at hlk
        exact ⟨p, rfl, by simpa using hlk⟩
    have hpn : p.2 = n := by simpa using List.find?_some hfind
    have hmem : (id, n) ∈ c.rows := by
      have := List.mem_of_find?_eq_some hfind
      rwa [show p = (id, n) from Prod.ext hid hpn] at this
    exact Catalog.findName_of_mem hwf hmem
  | none =>
    show Catalog.findName ⟨c.rows ++ [(c.nextId, n)], c.nextId + 1⟩ c.nextId = some n
    unfold Catalog.findName
    have hnone : c.rows.find? (fun p => p.1 == c.nextId) = none := by
      rw [List.find?_eq_none]
      intro p hp
      simpa using Nat.ne_of_lt (hwf.1 p hp)
    simp [List.find?_append, hnone, List.find?]

theorem Catalog.findName_getOrCreate_mono {c : Catalog} {n : String} {id : Nat}
    {m : String} (h : c.findName id = some m) :
    (c.getOrCreate n).1.findName id = some m := by
  unfold Catalog.getOrCreate
  cases hlk : c.lookupName n with
  | some j => exact h
  | none =>
    show Catalog.findName ⟨c.rows ++ [(c.nextId, n)], c.nextId + 1⟩ id = some m
    unfold Catalog.findName at h ⊢
    cases hf : c.rows.find? (fun p => p.1 == id) with
    | none => rw [hf] at h; cases h
    | some p =>
      rw [hf] at h
      simp [List.find?_append, hf, h]

theorem Catalog.getOrCreate_uniqueNames {c : Catalog} {n : String}
    (h : c.uniqueNames) : (c.getOrCreate n).1.uniqueNames := by
  unfold Catalog.getOrCreate
  cases hlk : c.lookupName n with
  | some id => exact h
  | none =>
    show Catalog.uniqueNames ⟨c.rows ++ [(c.nextId, n)], c.nextId + 1⟩
    unfold Catalog.uniqueNames at h ⊢
    have hnone : c.rows.find? (fun p => p.2 == n) = none := by
      unfold Catalog.lookupName at hlk
      cases hf : c.rows.find? (fun p => p.2 == n) with
      | none => rfl
      | some q => rw [hf] at hlk; cases hlk
    have habs : n ∉ c.rows.map Prod.snd := by
      intro hx
      obtain ⟨p, hp, hpx⟩ := List.mem_map.mp hx
      have := List.find?_eq_none.mp hnone p hp
      simp [hpx] at this
    simp only [List.map_append, List.map_cons, List.map_nil]
    rw [List.nodup_append]
    refine ⟨h, List.nodup_singleton _, ?_⟩
    intro x hx hx'
    rw [List.mem_singleton] at hx'
    subst hx'
    exact habs hx

/-- One ingredient line of the recipe form (`recipeSchema.ingredients`):
`name`, `quantity`, `unit`, `customUnit`, all strings (empty when blank). -/
structure IngredientForm where
  name : String
  quantity : String
  unit : String
  customUnit : String
  deriving DecidableEq, Repr

/-- `ing.unit === 'otro' ? ing.customUnit?.trim() : ing.unit`, then
`finalUnit || null`. -/
def finalUnit (ing : IngredientForm) : Option String :=
  let u := if ing.unit == "otro" then jsTrim ing.customUnit else ing.unit
  if u == "" then none else some u

/-- A `recipe_ingredients` row as written by the save path; `Q` is the numeric
type produced by JavaScript's `parseFloat`, kept abstract. -/
structure RIRow (Q : Type) where
  ingredientId : Nat
  quantity : Option Q
  unit : Option String
  orderIndex : Nat
  deriving DecidableEq, Repr

/-- `quantity: ing.quantity ? parseFloat(ing.quantity) : null`. -/
def savedQuantity {Q : Type} (parseFloat : String → Q) (ing : IngredientForm) :
    Option Q :=
  if ing.quantity == "" then none else some (parseFloat ing.quantity)

/-- The ingredient loop of `onSubmit` (new/page.tsx lines 170–205): for the
i-th valid ingredient, get-or-create the catalog row for the normalized name,
then write a `recipe_ingredients` row with `order_index: i`.  Returns the
final catalog and the written rows. -/
def saveIngredients {Q : Type} (parseFloat : String → Q) (cat : Catalog) :
    List IngredientForm → Nat → Catalog × List (RIRow Q)
  | [], _ => (cat, [])
  | ing :: rest, i =>
    let created := cat.getOrCreate (normalizeName ing.name)
    let restRes := saveIngredients parseFloat created.1 rest (i + 1)
    (restRes.1, ⟨created.2, savedQuantity parseFloat ing, finalUnit ing, i⟩ :: restRes.2)

/-- One instruction line of the recipe form. -/
structure InstructionForm where
  content : String
  deriving DecidableEq, Repr

/-- An `instructions` row. -/
structure InstructionRow where
  stepNumber : Nat
  content : String
  deriving DecidableEq, Repr

/-- The instruction loop of `onSubmit` (new/page.tsx lines 207–214):
`step_number: i + 1`, `content: validInstructions[i].content.trim()`. -/
def saveInstructions : List InstructionForm → Nat → List InstructionRow
  | [], _ => []
  | inst :: rest, i => ⟨i + 1, jsTrim inst.content⟩ :: saveInstructions rest (i + 1)

/-- One formatted ingredient as produced by `getRecipeById`. -/
structure FormattedIngredient (Q : Type) where
  quantity : Option Q
  unit : String
  name : String
  deriving DecidableEq, Repr

/-- The read path's comparator `(a, b) => a.order_index - b.order_index`. -/
def riLE {Q : Type} (a b : RIRow Q) : Prop := a.orderIndex ≤ b.orderIndex

instance {Q : Type} : DecidableRel (@riLE Q) := fun a b => Nat.decLe a.orderIndex b.orderIndex

/-- `.sort((a, b) => a.order_index - b.order_index)` — rows with pairwise
distinct order indices have a unique sorted arrangement, so any correct
comparison sort is modeled by insertion sort. -/
def sortIngredientRows {Q : Type} (rows : List (RIRow Q)) : List (RIRow Q) :=
  List.insertionSort riLE rows

/-- `getRecipeById`'s formatted ingredients (lines 133–141): sort by
`order_index` and project `quantity`, `unit || ''`, `ingredients?.name || ''`. -/
def formatIngredients {Q : Type} (cat : Catalog) (rows : List (RIRow Q)) :
    List (FormattedIngredient Q) :=
  (sortIngredientRows rows).map fun r =>
    ⟨r.quantity, r.unit.getD "", (cat.findName r.ingredientId).getD ""⟩

/-- The read path's instruction comparator. -/
def instLE (a b : InstructionRow) : Prop := a.stepNumber ≤ b.stepNumber

instance : DecidableRel instLE := fun a b => Nat.decLe a.stepNumber b.stepNumber

/-- `.sort((a, b) => a.step_number - b.step_number)`. -/
def sortInstructionRows (rows : List InstructionRow) : List InstructionRow :=
  List.insertionSort instLE rows

/-- `getRecipeById`'s formatted instructions (lines 143–147): sort by
`step_number` and project `content`. -/
def formatInstructions (rows : List InstructionRow) : List String :=
  (sortInstructionRows rows).map InstructionRow.content

/-- Sorting any permutation of a list whose key sequence is strictly
increasing recovers that list. -/
theorem insertionSort_key_perm_eq {α : Type} (key : α → Nat) (r : α → α → Prop)
    [DecidableRel r] (hr : ∀ a b, r a b ↔ key a ≤ key b)
    (l m : List α) (hp : List.Perm l m)
    (hm : m.Pairwise (fun a b => key a < key b)) :
    List.insertionSort r l = m := by
  haveI htot : IsTotal α r := ⟨fun a b => by rw [hr, hr]; exact Nat.le_total _ _⟩
  haveI htrans : IsTrans α r :=
    ⟨fun a b c h1 h2 => by
      rw [hr] at h1 h2 ⊢
      exact Nat.le_trans h1 h2⟩
  haveI hanti : IsAntisymm α (fun a b => key a < key b) :=
    ⟨fun a b h1 h2 => absurd h2 (Nat.lt_asymm h1)⟩
  have hperm : List.Perm (List.insertionSort r l) m := (List.perm_insertionSort r l).trans hp
  have hsorted : (List.insertionSort r l).Pairwise r := List.sorted_insertionSort r l
  have hkeysm : (m.map key).Nodup :=
    (List.pairwise_map.mpr hm).imp Nat.ne_of_lt
  have hkeys : ((List.insertionSort r l).map key).Nodup :=
    ((hperm.map key).nodup_iff).mpr hkeysm
  have hne : (List.insertionSort r l).Pairwise (fun a b => key a ≠ key b) :=
    List.pairwise_map.mp hkeys
  have hle : (List.insertionSort r l).Pairwise (fun a b => key a ≤ key b) :=
    hsorted.imp (fun h => (hr _ _).1 h)
  have hlt : (List.insertionSort r l).Pairwise (fun a b => key a < key b) :=
    (hle.and hne).imp (fun h => Nat.lt_of_le_of_ne h.1 h.2)
  exact List.eq_of_perm_of_sorted hperm hlt hm

theorem saveIngredients_WF {Q : Type} (pf : String → Q) :
    ∀ (ings : List IngredientForm) (cat : Catalog) (i : Nat), cat.WF →
      (saveIngredients pf cat ings i).1.WF := by
  intro ings
  induction ings with
  | nil => intro cat i h; exact h
  | cons ing rest ih =>
    intro cat i h
    simp only [saveIngredients]
    exact ih _ _ (Catalog.getOrCreate_WF h)

theorem saveIngredients_findName_mono {Q : Type} (pf : String → Q) :
    ∀ (ings : List IngredientForm) (cat : Catalog) (i : Nat) (id : Nat) (m : String),
      cat.findName id = some m →
      (saveIngredients pf cat ings i).1.findName id = some m := by
  intro ings
  induction ings with
  | nil => intro cat i id m h; exact h
  | cons ing rest ih =>
    intro cat i id m h
    simp only [saveIngredients]
    exact ih _ _ _ _ (Catalog.findName_getOrCreate_mono h)

theorem saveIngredients_orderIndices {Q : Type} (pf : String → Q) :
    ∀ (ings : List IngredientForm) (cat : Catalog) (i : Nat),
      (saveIngredients pf cat ings i).2.map RIRow.orderIndex =
        List.range' i ings.length := by
  intro ings
  induction ings with
  | nil => intro cat i; rfl
  | cons ing rest ih =>
    intro cat i
    simp only [saveIngredients, List.map_cons, List.length_cons, List.range'_succ,
      List.cons.injEq]
    exact ⟨trivial, ih _ _⟩

theorem saveIngredients_format {Q : Type} (pf : String → Q) :
    ∀ (ings : List IngredientForm) (cat : Catalog) (i : Nat), cat.WF →
      (saveIngredients pf cat ings i).2.map
          (fun r => (⟨r.quantity, r.unit.getD "",
            ((saveIngredients pf cat ings i).1.findName r.ingredientId).getD ""⟩ :
              FormattedIngredient Q)) =
        ings.map (fun ing =>
          ⟨savedQuantity pf ing, (finalUnit ing).getD "", normalizeName ing.name⟩) := by
  intro ings
  induction ings with
  | nil => intro cat i _; rfl
  | cons ing rest ih =>
    intro cat i hwf
    have hwf1 : (cat.getOrCreate (normalizeName ing.name)).1.WF :=
      Catalog.getOrCreate_WF hwf
    have hhead :
        (saveIngredients pf (cat.getOrCreate (normalizeName ing.name)).1 rest (i + 1)).1.findName
          (cat.getOrCreate (normalizeName ing.name)).2 = some (normalizeName ing.name) :=
      saveIngredients_findName_mono pf rest _ (i + 1) _ _ (Catalog.getOrCreate_findName hwf)
    simp only [saveIngredients, List.map_cons, hhead, Option.getD_some, List.cons.injEq]
    exact ⟨trivial, ih _ _ hwf1⟩

theorem saveInstructions_spec :
    ∀ (insts : List InstructionForm) (i : Nat),
      (saveInstructions insts i).map InstructionRow.stepNumber =
          List.range' (i + 1) insts.length ∧
        (saveInstructions insts i).map InstructionRow.content =
          insts.map (fun inst => jsTrim inst.content) := by
  intro insts
  induction insts with
  | nil => intro i; exact ⟨rfl, rfl⟩
  | cons inst rest ih =>
    intro i
    constructor
    · simp only [saveInstructions, List.map_cons, List.length_cons, List.range'_succ,
        List.cons.injEq]
      exact ⟨trivial, (ih (i + 1)).1⟩
    · simp only [saveInstructions, List.map_cons, List.cons.injEq]
      exact ⟨trivial, (ih (i + 1)).2⟩

/-- C6: saving a recipe assigns ingredient `order_index` 0..N−1 and
instruction `step_number` 1..N by array position, and re-reading — whatever
row order the store returns (any permutation of the written rows) — yields
the ingredients sorted by order index and the instructions sorted by step
number in exactly the submitted order: the i-th formatted ingredient is the
i-th submitted one (normalized name, parsed quantity, resolved unit), and the
i-th instruction text is the i-th submitted content, trimmed. -/
theorem recipe_save_read_roundtrip {Q : Type} (pf : String → Q) (cat : Catalog)
    (ings : List IngredientForm) (insts : List InstructionForm)
    (rows : List (RIRow Q)) (irows : List InstructionRow)
    (hwf : cat.WF)
    (hperm : List.Perm rows (saveIngredients pf cat ings 0).2)
    (hiperm : List.Perm irows (saveInstructions insts 0)) :
    (saveIngredients pf cat ings 0).2.map RIRow.orderIndex =
        List.range' 0 ings.length ∧
    (saveInstructions insts 0).map InstructionRow.stepNumber =
        List.range' 1 insts.length ∧
    formatIngredients (saveIngredients pf cat ings 0).1 rows =
      ings.map (fun ing =>
        ⟨savedQuantity pf ing, (finalUnit ing).getD "", normalizeName ing.name⟩) ∧
    formatInstructions irows = insts.map (fun inst => jsTrim inst.content) := by
  have hidx := saveIngredients_orderIndices pf ings cat 0
  have hstep := (saveInstructions_spec insts 0).1
  refine ⟨hidx, hstep, ?_, ?_⟩
  · have hpwkeys :
        ((saveIngredients pf cat ings 0).2.map RIRow.orderIndex).Pairwise (· < ·) := by
      rw [hidx]
      exact List.pairwise_lt_range' 0 ings.length
    have hpw : (saveIngredients pf cat ings 0).2.Pairwise
        (fun a b => a.orderIndex < b.orderIndex) := List.pairwise_map.mp hpwkeys
    have hsorteq : sortIngredientRows rows = (saveIngredients pf cat ings 0).2 :=
      insertionSort_key_perm_eq RIRow.orderIndex riLE (fun a b => Iff.rfl) rows _ hperm hpw
    unfold formatIngredients
    rw [hsorteq]
    exact saveIngredients_format pf ings cat 0 hwf
  · have hpwkeys :
        ((saveInstructions insts 0).map InstructionRow.stepNumber).Pairwise (· < ·) := by
      rw [hstep]
      exact List.pairwise_lt_range' 1 insts.length
    have hpw : (saveInstructions insts 0).Pairwise
        (fun a b => a.stepNumber < b.stepNumber) := List.pairwise_map.mp hpwkeys
    have hsorteq : sortInstructionRows irows = saveInstructions insts 0 :=
      insertionSort_key_perm_eq InstructionRow.stepNumber instLE (fun a b => Iff.rfl)
        irows _ hiperm hpw
    unfold formatInstructions
    rw [hsorteq]
    exact (saveInstructions_spec insts 0).2

/-- A concrete `parseFloat` stand-in for witnesses (its value is irrelevant to
the ordering claims). -/
def sampleParse (s : String) : Int := s.length

/-- The spec's example ingredients. -/
def sampleIngredients : List IngredientForm :=
  [⟨"Harina", "2", "taza", ""⟩, ⟨"Sal", "1", "pizca", ""⟩]

/-- The spec's example instructions. -/
def sampleInstructions : List InstructionForm := [⟨"Mezclar"⟩, ⟨"Hornear"⟩]

/-- An empty ingredient catalog. -/
def sampleCatalog : Catalog := ⟨[], 0⟩

theorem sampleCatalog_WF : sampleCatalog.WF := by
  refine ⟨?_, ?_⟩
  · intro p hp
    cases hp
  · exact List.nodup_nil

theorem recipe_save_read_roundtrip_witness :
    sampleCatalog.WF ∧
    List.Perm ((saveIngredients sampleParse sampleCatalog sampleIngredients 0).2.reverse)
      (saveIngredients sampleParse sampleCatalog sampleIngredients 0).2 ∧
    List.Perm ((saveInstructions sampleInstructions 0).reverse)
      (saveInstructions sampleInstructions 0) ∧
    ((saveIngredients sampleParse sampleCatalog sampleIngredients 0).2.map RIRow.orderIndex =
        List.range' 0 sampleIngredients.length ∧
      (saveInstructions sampleInstructions 0).map InstructionRow.stepNumber =
        List.range' 1 sampleInstructions.length ∧
      formatIngredients (saveIngredients sampleParse sampleCatalog sampleIngredients 0).1
          ((saveIngredients sampleParse sampleCatalog sampleIngredients 0).2.reverse) =
        sampleIngredients.map (fun ing =>
          ⟨savedQuantity sampleParse ing, (finalUnit ing).getD "", normalizeName ing.name⟩) ∧
      formatInstructions ((saveInstructions sampleInstructions 0).reverse) =
        sampleInstructions.map (fun inst => jsTrim inst.content)) :=
  ⟨sampleCatalog_WF, List.reverse_perm _, List.reverse_perm _,
    recipe_save_read_roundtrip sampleParse sampleCatalog sampleIngredients sampleInstructions
      _ _ sampleCatalog_WF (List.reverse_perm _) (List.reverse_perm _)⟩

theorem saveIngredients_uniqueNames {Q : Type} (pf : String → Q) :
    ∀ (ings : List IngredientForm) (cat : Catalog) (i : Nat), cat.uniqueNames →
      (saveIngredients pf cat ings i).1.uniqueNames := by
  intro ings
  induction ings with
  | nil => intro cat i h; exact h
  | cons ing rest ih =>
    intro cat i h
    simp only [saveIngredients]
    exact ih _ _ (Catalog.getOrCreate_uniqueNames h)

theorem saveIngredients_all_found {Q : Type} (pf : String → Q) :
    ∀ (ings : List IngredientForm) (cat : Catalog) (i : Nat),
      (∀ ing ∈ ings, (cat.lookupName (normalizeName ing.name)).isSome) →
      (saveIngredients pf cat ings i).1 = cat := by
  intro ings
  induction ings with
  | nil => intro cat i _; rfl
  | cons ing rest ih =>
    intro cat i h
    have hhead := h ing (List.mem_cons_self ing rest)
    cases hlk : cat.lookupName (normalizeName ing.name) with
    | none => rw [hlk] at hhead; cases hhead
    | some id =>
      have hgc : cat.getOrCreate (normalizeName ing.name) = (cat, id) := by
        unfold Catalog.getOrCreate
        rw [hlk]
      simp only [saveIngredients, hgc]
      exact ih _ _ (fun q hq => h q (List.mem_cons_of_mem ing hq))

/-- C7: when an ingredient's normalized name is already in the global catalog,
the save path's lookup-first strategy reuses the existing row's id and leaves
the catalog unchanged (no duplicate row); and a whole save preserves the
at-most-one-row-per-normalized-name invariant.  When every submitted name is
already present, the catalog is unchanged row-for-row. -/
theorem ingredient_catalog_dedup {Q : Type} (pf : String → Q) (cat : Catalog)
    (ings : List IngredientForm) (name : String) (id : Nat)
    (hfound : cat.lookupName name = some id) (huniq : cat.uniqueNames) :
    cat.getOrCreate name = (cat, id) ∧
    (saveIngredients pf cat ings 0).1.uniqueNames ∧
    ((∀ ing ∈ ings, (cat.lookupName (normalizeName ing.name)).isSome) →
      (saveIngredients pf cat ings 0).1 = cat) := by
  refine ⟨?_, saveIngredients_uniqueNames pf ings cat 0 huniq,
    saveIngredients_all_found pf ings cat 0⟩
  unfold Catalog.getOrCreate
  rw [hfound]

/-- Catalog already holding the normalized name `"harina"`. -/
def c7Catalog : Catalog := ⟨[(0, "harina")], 1⟩

/-- A re-submitted ingredient whose name normalizes to `"harina"`. -/
def c7Ingredients : List IngredientForm := [⟨"  HARINA ", "2", "taza", ""⟩]

theorem ingredient_catalog_dedup_witness :
    c7Catalog.lookupName "harina" = some 0 ∧ c7Catalog.uniqueNames ∧
    (c7Catalog.getOrCreate "harina" = (c7Catalog, 0) ∧
      (saveIngredients sampleParse c7Catalog c7Ingredients 0).1.uniqueNames ∧
      ((∀ ing ∈ c7Ingredients, (c7Catalog.lookupName (normalizeName ing.name)).isSome) →
        (saveIngredients sampleParse c7Catalog c7Ingredients 0).1 = c7Catalog)) :=
  ⟨rfl, List.nodup_singleton _,
    ingredient_catalog_dedup sampleParse c7Catalog c7Ingredients "harina" 0 rfl
      (List.nodup_singleton _)⟩

/-! ### The recipe form submit path (`src/components/recipes/recipe-form.tsx`) -/

/-- The form fields `onSubmit` actually branches on. -/
structure RecipeFormData where
  title : String
  ingredients : List IngredientForm
  instructions : List InstructionForm
  deriving DecidableEq, Repr

/-- `mode: 'create' | 'edit'`. -/
inductive FormMode where
  | create
  | edit
  deriving DecidableEq, Repr

/-- The `{ code?, message? }` error shape handed to `handleError` (a missing
message is the empty string, which matches no substring test). -/
structure DbError where
  code : Option String
  message : String
  deriving DecidableEq, Repr

/-- Observable steps of one form submission: toasts, the loading flag, and
every network call (auth check, RPC, row writes, navigation). -/
inductive FormEv where
  | toastError (s : String)
  | toastSuccess (s : String)
  | setLoading (b : Bool)
  | getUser
  | rpc (fn : String)
  | deleteRows (table : String)
  | insertRows (table : String)
  | navigate (path : String)
  deriving DecidableEq, Repr

/-- `true` for events that issue a network request (auth check, RPC, or row
writes). -/
def FormEv.isNetwork : FormEv → Bool
  | .getUser => true
  | .rpc _ => true
  | .deleteRows _ => true
  | .insertRows _ => true
  | _ => false

/-- `needle` occurs as a contiguous run of `hay` (JavaScript's
`String.prototype.includes`). -/
def listIncludes (needle : List Char) : List Char → Bool
  | [] => needle.isEmpty
  | c :: rest => needle.isPrefixOf (c :: rest) || listIncludes needle rest

/-- `hay.includes(needle)`. -/
def strIncludes (hay needle : String) : Bool := listIncludes needle.data hay.data

/-- `handleError` (recipe-form.tsx lines 228–238): duplicate-key violations,
ownership failures, and everything else each map to one toast. -/
def handleError (e : DbError) (actionName : String) : FormEv :=
  if e.code == some "23505" || strIncludes e.message "duplicate" then
    .toastError "Ya tienes una receta con ese nombre"
  else if strIncludes e.message "not found" || strIncludes e.message "not owned" then
    .toastError "No tienes permiso para editar esta receta"
  else
    .toastError ("Error al " ++ actionName ++ " la receta")

/-- `data.ingredients.filter(i => i.name.trim())`. -/
def validIngredientsOf (d : RecipeFormData) : List IngredientForm :=
  d.ingredients.filter (fun i => jsTrim i.name != "")

/-- `data.instructions.filter(i => i.content.trim())`. -/
def validInstructionsOf (d : RecipeFormData) : List InstructionForm :=
  d.instructions.filter (fun i => jsTrim i.content != "")

/-- `onSubmit` of the recipe form (recipe-form.tsx lines 98–226) as its trace
of observable events.  `configured` is whether the Supabase client exists,
`user` the authenticated user, `rpcError` the atomic RPC's error (if any). -/
def recipeFormSubmit (configured : Bool) (d : RecipeFormData) (user : Option String)
    (mode : FormMode) (recipeId : String) (newRecipeId : String)
    (rpcError : Option DbError) (selectedTags : List String) : List FormEv :=
  if !configured then [.toastError "Supabase no esta configurado"]
  else if (validIngredientsOf d).isEmpty then
    [.toastError "Agrega al menos un ingrediente con nombre"]
  else if (validInstructionsOf d).isEmpty then
    [.toastError "Agrega al menos un paso con contenido"]
  else
    .setLoading true ::
      ((match user with
        | none => [.getUser, .toastError "Debes iniciar sesion", .navigate "/login"]
        | some _ =>
          .getUser ::
            (match mode, rpcError with
             | .create, some e => [.rpc "create_recipe_atomic", handleError e "crear"]
             | .create, none =>
               .rpc "create_recipe_atomic" ::
                 ((if selectedTags.isEmpty then [] else [.insertRows "recipe_tags"]) ++
                   [.toastSuccess "Receta creada exitosamente!",
                    .navigate ("/recipes/" ++ newRecipeId)])
             | .edit, some e => [.rpc "update_recipe_atomic", handleError e "actualizar"]
             | .edit, none =>
               .rpc "update_recipe_atomic" :: .deleteRows "recipe_tags" ::
                 ((if selectedTags.isEmpty then [] else [.insertRows "recipe_tags"]) ++
                   [.toastSuccess "Receta actualizada exitosamente!",
                    .navigate ("/recipes/" ++ recipeId)]))) ++
        [.setLoading false])

/-- C8: with the client configured, submitting a recipe whose ingredient list
has no entry with a non-whitespace name stops at the client-side check: the
whole submission is the single validation toast — no auth check, no RPC, no
row write, and the loading flag is never touched. -/
theorem form_empty_ingredients_blocks (d : RecipeFormData) (user : Option String)
    (mode : FormMode) (recipeId newRecipeId : String) (rpcError : Option DbError)
    (tags : List String)
    (hempty : (validIngredientsOf d).isEmpty = true) :
    recipeFormSubmit true d user mode recipeId newRecipeId rpcError tags =
      [.toastError "Agrega al menos un ingrediente con nombre"] ∧
    (∀ e ∈ recipeFormSubmit true d user mode recipeId newRecipeId rpcError tags,
      e.isNetwork = false) ∧
    (∀ b, FormEv.setLoading b ∉
      recipeFormSubmit true d user mode recipeId newRecipeId rpcError tags) := by
  have heq : recipeFormSubmit true d user mode recipeId newRecipeId rpcError tags =
      [.toastError "Agrega al menos un ingrediente con nombre"] := by
    simp [recipeFormSubmit, hempty]
  refine ⟨heq, ?_, ?_⟩
  · intro e he
    rw [heq, List.mem_singleton] at he
    subst he
    rfl
  · intro b hb
    rw [heq, List.mem_singleton] at hb
    cases hb

/-- A submission whose only ingredient name is whitespace. -/
def c8Data : RecipeFormData :=
  ⟨"Pan", [⟨"   ", "2", "taza", ""⟩], [⟨"Mezclar todo bien"⟩]⟩

theorem form_empty_ingredients_blocks_witness :
    (validIngredientsOf c8Data).isEmpty = true ∧
    (recipeFormSubmit true c8Data (some "u1") .create "" "r1" none [] =
      [.toastError "Agrega al menos un ingrediente con nombre"] ∧
    (∀ e ∈ recipeFormSubmit true c8Data (some "u1") .create "" "r1" none [],
      e.isNetwork = false) ∧
    (∀ b, FormEv.setLoading b ∉
      recipeFormSubmit true c8Data (some "u1") .create "" "r1" none [])) :=
  ⟨by decide, form_empty_ingredients_blocks c8Data (some "u1") .create "" "r1" none []
    (by decide)⟩

/-! ### Optimistic like / bookmark toggles -/

/-- Local state of the like button. -/
structure LikeState where
  isLiked : Bool
  likeCount : Int
  isLoading : Bool
  deriving DecidableEq, Repr

/-- Local state of the bookmark button. -/
structure BookmarkState where
  isBookmarked : Bool
  isLoading : Bool
  deriving DecidableEq, Repr

/-- Observable side effects of one toggle invocation. -/
inductive ToggleEv where
  | toastError (s : String)
  | toastSuccess (s : String)
  | deleteRow (table : String)
  | insertRow (table : String)
  deriving DecidableEq, Repr

/-- `handleToggleLike` (like-button.tsx lines 80–133): guards, optimistic
flip of `isLiked` and the count, the backing write (delete when previously
liked, insert otherwise), revert-plus-toast in `catch` when the write fails,
and `setIsLoading(false)` in `finally` — state updates gated on the component
still being mounted. -/
def handleToggleLike (configured : Bool) (userId : Option String) (mounted : Bool)
    (writeOk : Bool) (st : LikeState) : LikeState × List ToggleEv :=
  if !configured then (st, [.toastError "Error de conexion"])
  else
    match userId with
    | none => (st, [.toastError "Debes iniciar sesion para dar like"])
    | some _ =>
      if st.isLoading then (st, [])
      else
        let previousState := st.isLiked
        let previousCount := st.likeCount
        let optimistic : LikeState :=
          ⟨!st.isLiked, if st.isLiked then st.likeCount - 1 else st.likeCount + 1, true⟩
        let dbEv := if previousState then ToggleEv.deleteRow "recipe_likes"
                    else ToggleEv.insertRow "recipe_likes"
        if writeOk then
          ({ optimistic with isLoading := if mounted then false else true }, [dbEv])
        else
          if mounted then
            (⟨previousState, previousCount, false⟩,
             [dbEv, .toastError "Error al actualizar like"])
          else (optimistic, [dbEv])

/-- `handleToggleBookmark` (bookmark-button.tsx lines 67–118): same shape,
with a success toast per write direction and no count. -/
def handleToggleBookmark (configured : Bool) (userId : Option String) (mounted : Bool)
    (writeOk : Bool) (st : BookmarkState) : BookmarkState × List ToggleEv :=
  if !configured then (st, [.toastError "Error de conexion"])
  else
    match userId with
    | none => (st, [.toastError "Debes iniciar sesion para guardar recetas"])
    | some _ =>
      if st.isLoading then (st, [])
      else
        let previousState := st.isBookmarked
        let dbEv := if previousState then ToggleEv.deleteRow "bookmarks"
                    else ToggleEv.insertRow "bookmarks"
        let successToast := if previousState then "Receta eliminada de guardados"
                            else "Receta guardada"
        if writeOk then
          (⟨!st.isBookmarked, if mounted then false else true⟩,
           [dbEv] ++ (if mounted then [ToggleEv.toastSuccess successToast] else []))
        else
          if mounted then
            (⟨previousState, false⟩, [dbEv, .toastError "Error al actualizar guardados"])
          else (⟨!st.isBookmarked, true⟩, [dbEv])

/-- C9: when the backing write of a like or bookmark toggle fails (mounted
component, authenticated user, no toggle already in flight), the optimistic
state is restored to exactly its pre-invocation value — liked/bookmarked flag
and, for likes, the count — the user is notified with an error toast, and the
toggle function returns normally (the failure is absorbed by the `catch`). -/
theorem toggle_write_failure_reverts (uid : String) (st : LikeState)
    (bst : BookmarkState) (hld : st.isLoading = false)
    (hbld : bst.isLoading = false) :
    (handleToggleLike true (some uid) true false st).1 = st ∧
    ToggleEv.toastError "Error al actualizar like" ∈
      (handleToggleLike true (some uid) true false st).2 ∧
    (handleToggleBookmark true (some uid) true false bst).1 = bst ∧
    ToggleEv.toastError "Error al actualizar guardados" ∈
      (handleToggleBookmark true (some uid) true false bst).2 := by
  obtain ⟨l, cnt, ld⟩ := st
  obtain ⟨b, bld⟩ := bst
  simp only at hld hbld
  subst hld
  subst hbld
  refine ⟨?_, ?_, ?_, ?_⟩ <;> simp [handleToggleLike, handleToggleBookmark]

theorem toggle_write_failure_reverts_witness :
    (⟨false, 3, false⟩ : LikeState).isLoading = false ∧
    (⟨true, false⟩ : BookmarkState).isLoading = false ∧
    ((handleToggleLike true (some "u1") true false ⟨false, 3, false⟩).1 =
        ⟨false, 3, false⟩ ∧
      ToggleEv.toastError "Error al actualizar like" ∈
        (handleToggleLike true (some "u1") true false ⟨false, 3, false⟩).2 ∧
      (handleToggleBookmark true (some "u1") true false ⟨true, false⟩).1 =
        ⟨true, false⟩ ∧
      ToggleEv.toastError "Error al actualizar guardados" ∈
        (handleToggleBookmark true (some "u1") true false ⟨true, false⟩).2) :=
  ⟨rfl, rfl, toggle_write_failure_reverts "u1" ⟨false, 3, false⟩ ⟨true, false⟩ rfl rfl⟩

end Recetas
